import Mathlib

/-!
Verification of the dynamic-matrix candlestick chart core (`src/core-matrix.ts`).

The embedding mirrors the `DynamicMatrix` class.  JavaScript numbers carrying
prices are modelled as `ℚ` (all arithmetic on them is exact in the source:
sums, differences, division, `Math.round`, `Math.ceil`).  Candle magnitudes
(`bodySize`, `upperWick`, `lowerWick`) are modelled as `ℕ`: the data model
declares them as non-negative magnitudes and they are used as grid extents
(`new Array(width)` requires an integral length, so only integral magnitudes
give the program a defined meaning).  Row/column indices are `ℤ`, matching the
signed arithmetic (`column - 1`, `height - buffer - 1`) of the source; the
grid itself is a `List (List Char)`.

The `Infinity` / `-Infinity` initial values of `minPrice` / `maxPrice` are
modelled by an arbitrary default (`0`): every read of those fields in the
source is guarded by `candles.length !== 0` (in `addCandle` and `priceToRow`),
and `addFirstCandle` overwrites both before any read, so the sentinel values
are never observed.
-/

set_option autoImplicit false

namespace AsciiChart

/-- `type` field of a candle (`'bullish' | 'bearish'`). -/
inductive CandleType where
  | bullish
  | bearish
deriving DecidableEq

/-- Interface `Candle` of `core-matrix.ts`. -/
structure Candle where
  type : CandleType
  bodySize : ℕ
  upperWick : ℕ
  lowerWick : ℕ
deriving DecidableEq

/-- Interface `PositionedCandle` of `core-matrix.ts`. -/
structure PositionedCandle extends Candle where
  column : ℤ
  highPrice : ℚ
  openPrice : ℚ
  closePrice : ℚ
  lowPrice : ℚ
deriving DecidableEq

/-- State of the `DynamicMatrix` class: grid plus price tracking. -/
structure DynamicMatrix where
  data : List (List Char)
  width : ℕ
  height : ℕ
  buffer : ℕ
  minPrice : ℚ
  maxPrice : ℚ
  candles : List PositionedCandle
deriving DecidableEq

/-- `defaultWidth = 7`. -/
def defaultWidth : ℕ := 7

/-- `defaultHeight = 7`. -/
def defaultHeight : ℕ := 7

/-- `createEmptyMatrix`: a `height × width` grid of blanks. -/
def createEmptyMatrix (width height : ℕ) : List (List Char) :=
  List.replicate height (List.replicate width ' ')

/-- The constructor of `DynamicMatrix`. -/
def DynamicMatrix.initial : DynamicMatrix where
  data := createEmptyMatrix defaultWidth defaultHeight
  width := defaultWidth
  height := defaultHeight
  buffer := 1
  minPrice := 0
  maxPrice := 0
  candles := []

/-- `expandMatrix(newWidth, newHeight)`.  The source allocates a blank
`actualHeight × actualWidth` grid and copies cell `(row, col)` of the old grid
for every `row < height`, `col < width` for which the old grid actually holds
a value; out-of-range reads leave the blank, which coincides with reading the
old grid through a `' '`-defaulting lookup.  The copy loop writes pairwise
distinct cells, so the loop is expressed cell-wise. -/
def expandMatrix (m : DynamicMatrix) (newWidth newHeight : ℤ) : DynamicMatrix :=
  if newWidth ≤ (m.width : ℤ) ∧ newHeight ≤ (m.height : ℤ) then m
  else
    let actualWidth := max (m.width : ℤ) newWidth
    let actualHeight := max (m.height : ℤ) newHeight
    let newData := (List.range actualHeight.toNat).map fun row =>
      (List.range actualWidth.toNat).map fun col =>
        if row < m.height ∧ col < m.width then (m.data.getD row []).getD col ' ' else ' '
    { m with data := newData, width := actualWidth.toNat, height := actualHeight.toNat }

/-- Observation used by the specification: the character stored at
`(row, col)`, blank when out of range (matching the blank-initialized grid). -/
def getCell (m : DynamicMatrix) (row col : ℕ) : Char :=
  (m.data.getD row []).getD col ' '

/-- `setCell(row, col, char)`: bounds-checked write. -/
def setCell (m : DynamicMatrix) (row col : ℤ) (ch : Char) : DynamicMatrix :=
  if 0 ≤ row ∧ row < (m.height : ℤ) ∧ 0 ≤ col ∧ col < (m.width : ℤ) then
    { m with data := m.data.set row.toNat ((m.data.getD row.toNat []).set col.toNat ch) }
  else m

/-- `priceToRow(price)`. `Math.floor(this.height / 2)` is integer division,
`Math.round` is `round` (round half towards `+∞`, `⌊x + 1/2⌋`). -/
def priceToRow (m : DynamicMatrix) (price : ℚ) : ℤ :=
  if m.candles = [] then 0
  else
    let priceRange := m.maxPrice - m.minPrice
    if priceRange = 0 then (m.height : ℤ) / 2
    else
      let normalized := (m.maxPrice - price) / priceRange
      let availableHeight : ℤ := (m.height : ℤ) - 2 * (m.buffer : ℤ)
      let row := (m.buffer : ℤ) + round (normalized * (availableHeight : ℚ))
      max (m.buffer : ℤ) (min row ((m.height : ℤ) - (m.buffer : ℤ) - 1))

/-- The integers `a, a+1, …, b-1`, i.e. the values taken by
`for (let row = a; row < b; row++)`. -/
def intRange (a b : ℤ) : List ℤ :=
  (List.range (b - a).toNat).map fun (k : ℕ) => a + (k : ℤ)

/-- The body of the "Draw body" loop of `drawCandle`: one row of the
3-column-wide body, with the source's edge guards.  `this.width` is unchanged
by `setCell`, so reading it after the first two writes reads the same value. -/
def bodyRowWrite (m : DynamicMatrix) (row col : ℤ) (sym : Char) : DynamicMatrix :=
  let m1 := if 0 < col then setCell m row (col - 1) sym else m
  let m2 := setCell m1 row col sym
  if col < (m2.width : ℤ) - 1 then setCell m2 row (col + 1) sym else m2

/-- `drawCandle(candle)`: upper wick, then body, then lower wick. -/
def drawCandle (m : DynamicMatrix) (candle : PositionedCandle) : DynamicMatrix :=
  let highRow := priceToRow m candle.highPrice
  let openRow := priceToRow m candle.openPrice
  let closeRow := priceToRow m candle.closePrice
  let lowRow := priceToRow m candle.lowPrice
  let bodySymbol := if candle.type = CandleType.bullish then '█' else '░'
  let wickSymbol := '|'
  let bodyTopRow := min openRow closeRow
  let bodyBottomRow := max openRow closeRow
  let m1 := (intRange highRow bodyTopRow).foldl
    (fun s row => setCell s row candle.column wickSymbol) m
  let m2 := (intRange bodyTopRow (bodyBottomRow + 1)).foldl
    (fun s row => bodyRowWrite s row candle.column bodySymbol) m1
  (intRange (bodyBottomRow + 1) (lowRow + 1)).foldl
    (fun s row => setCell s row candle.column wickSymbol) m2

/-- The loop of `redrawAllCandles`: assigns `column` to each candle in turn
(starting from the given `currentColumn`, stepping by 6) and draws it.  The
source mutates `candle.column` in place and then draws; since `drawCandle`
reads no other candle's `column` and `priceToRow` only tests the candle
list's emptiness, threading the updated list separately is equivalent. -/
def redrawGo (m : DynamicMatrix) (col : ℤ) :
    List PositionedCandle → DynamicMatrix × List PositionedCandle
  | [] => (m, [])
  | c :: rest =>
    let c' := { c with column := col }
    let m' := drawCandle m c'
    let r := redrawGo m' (col + 6) rest
    (r.1, c' :: r.2)

/-- `redrawAllCandles()`: clear the grid, then reposition and draw every
candle left to right starting at column 3. -/
def redrawAllCandles (m : DynamicMatrix) : DynamicMatrix :=
  let cleared := { m with data := createEmptyMatrix m.width m.height }
  let r := redrawGo cleared 3 m.candles
  { r.1 with candles := r.2 }

/-- The `if (...) { this.expandMatrix(...) }` step shared by both add
operations. -/
def expandIfNeeded (m : DynamicMatrix) (cond : Prop) [Decidable cond]
    (newWidth newHeight : ℤ) : DynamicMatrix :=
  if cond then expandMatrix m newWidth newHeight else m

/-- `this.candles.push(positioned)`. -/
def appendCandle (m : DynamicMatrix) (pc : PositionedCandle) : DynamicMatrix :=
  { m with candles := m.candles ++ [pc] }

/-- The consecutive assignments to `this.minPrice` and `this.maxPrice`. -/
def setPriceBounds (m : DynamicMatrix) (mn mx : ℚ) : DynamicMatrix :=
  { m with minPrice := mn, maxPrice := mx }

/-- `addFirstCandle(candle)`.  The source also computes `centerRow` and
`halfHeight`, which are never used and are omitted. -/
def addFirstCandle (m : DynamicMatrix) (candle : Candle) : DynamicMatrix :=
  let totalHeight := candle.bodySize + candle.upperWick + candle.lowerWick
  let requiredHeight := totalHeight + 2 * m.buffer
  let m1 := expandIfNeeded m (requiredHeight > m.height) (m.width : ℤ) (requiredHeight : ℤ)
  let highPrice : ℚ := 100 + candle.upperWick
  let lowPrice : ℚ := 100 - candle.bodySize - candle.lowerWick
  let openPrice : ℚ :=
    if candle.type = CandleType.bullish then 100 - (candle.bodySize : ℚ) else 100
  let closePrice : ℚ :=
    if candle.type = CandleType.bullish then 100 else 100 - (candle.bodySize : ℚ)
  let positioned : PositionedCandle :=
    { candle with column := 3, highPrice, openPrice, closePrice, lowPrice }
  let m2 := setPriceBounds (appendCandle m1 positioned) lowPrice highPrice
  redrawAllCandles m2

/-- `addCandle(candle)`: delegates to `addFirstCandle` on an empty session,
otherwise applies the open-equals-previous-close rule with the
visual-separation nudge, updates the price bounds, expands if needed,
appends and redraws. -/
def addCandle (m : DynamicMatrix) (candle : Candle) : DynamicMatrix :=
  if h : m.candles = [] then addFirstCandle m candle
  else
    let prevCandle := m.candles.getLast h
    let prevClose := prevCandle.closePrice
    let visualSeparation : ℚ := 1
    let openPrice :=
      if prevCandle.type = CandleType.bullish ∧ candle.type = CandleType.bullish then
        prevClose + visualSeparation
      else if prevCandle.type = CandleType.bearish ∧ candle.type = CandleType.bearish then
        prevClose - visualSeparation
      else prevClose
    let closePrice : ℚ :=
      if candle.type = CandleType.bullish then openPrice + candle.bodySize
      else openPrice - candle.bodySize
    let highPrice : ℚ :=
      if candle.type = CandleType.bullish then closePrice + candle.upperWick
      else openPrice + candle.upperWick
    let lowPrice : ℚ :=
      if candle.type = CandleType.bullish then openPrice - candle.lowerWick
      else closePrice - candle.lowerWick
    let minPrice := min m.minPrice lowPrice
    let maxPrice := max m.maxPrice highPrice
    let priceRange := maxPrice - minPrice
    let requiredHeight : ℤ := ⌈priceRange⌉ + 2 * (m.buffer : ℤ)
    let requiredWidth : ℕ := (m.candles.length + 1) * 6 + 3
    let m1 := setPriceBounds m minPrice maxPrice
    let m2 := expandIfNeeded m1
      (requiredHeight > (m1.height : ℤ) ∨ (requiredWidth : ℤ) > (m1.width : ℤ))
      (requiredWidth : ℤ) requiredHeight
    let positioned : PositionedCandle :=
      { candle with column := prevCandle.column + 6, highPrice, openPrice, closePrice, lowPrice }
    let m3 := appendCandle m2 positioned
    redrawAllCandles m3

/-- Well-formedness of the grid: `data` is a `height × width` rectangle.
Holds for the constructor state and is preserved by every operation. -/
def WF (m : DynamicMatrix) : Prop :=
  m.data.length = m.height ∧ ∀ i, i < m.height → (m.data.getD i []).length = m.width

instance (m : DynamicMatrix) : Decidable (WF m) := by
  unfold WF; infer_instance

/-! ### Generic list lemmas -/

theorem list_getD_len_le {α : Type} (d : α) :
    ∀ (l : List α) (i : ℕ), l.length ≤ i → l.getD i d = d := by
  intro l
  induction l with
  | nil => intro i _; cases i <;> rfl
  | cons a t ih =>
    intro i h
    cases i with
    | zero => simp at h
    | succ n => exact ih n (Nat.le_of_succ_le_succ h)

theorem list_getD_set {α : Type} (d a : α) :
    ∀ (l : List α) (i j : ℕ),
      (l.set i a).getD j d = if i = j ∧ j < l.length then a else l.getD j d := by
  intro l
  induction l with
  | nil => intro i j; simp
  | cons b t ih =>
    intro i j
    cases i with
    | zero =>
      cases j with
      | zero => simp
      | succ n => simp
    | succ k =>
      cases j with
      | zero => simp
      | succ n =>
        show (t.set k a).getD n d = _
        rw [ih k n]
        simp only [List.length_cons]
        split_ifs <;> first | rfl | omega

theorem list_getD_replicate {α : Type} (a d : α) :
    ∀ (n i : ℕ), (List.replicate n a).getD i d = if i < n then a else d := by
  intro n
  induction n with
  | zero => intro i; simp
  | succ k ih =>
    intro i
    cases i with
    | zero => simp
    | succ j =>
      show (List.replicate k a).getD j d = _
      rw [ih j]
      split_ifs <;> first | rfl | omega

theorem list_getD_map_range {α : Type} (f : ℕ → α) (d : α) (n i : ℕ) :
    ((List.range n).map f).getD i d = if i < n then f i else d := by
  rcases Nat.lt_or_ge i n with h | h
  · rw [if_pos h, List.getD_eq_getElem?_getD, List.getElem?_map, List.getElem?_range h]
    rfl
  · rw [if_neg (by omega), list_getD_len_le]
    simpa using h

theorem mem_intRange {a b r : ℤ} : r ∈ intRange a b ↔ a ≤ r ∧ r < b := by
  unfold intRange
  rw [List.mem_map]
  constructor
  · rintro ⟨k, hk, rfl⟩
    rw [List.mem_range] at hk
    omega
  · intro h
    refine ⟨(r - a).toNat, ?_, by omega⟩
    rw [List.mem_range]
    omega

/-! ### Shape preservation: the drawing primitives only modify `data` -/

/-- `m'` agrees with `m` on every field except possibly `data`. -/
def dataOnly (m m' : DynamicMatrix) : Prop :=
  m'.width = m.width ∧ m'.height = m.height ∧ m'.buffer = m.buffer ∧
  m'.candles = m.candles ∧ m'.minPrice = m.minPrice ∧ m'.maxPrice = m.maxPrice

theorem dataOnly_refl (m : DynamicMatrix) : dataOnly m m :=
  ⟨rfl, rfl, rfl, rfl, rfl, rfl⟩

theorem dataOnly_trans {m₁ m₂ m₃ : DynamicMatrix}
    (h₁ : dataOnly m₁ m₂) (h₂ : dataOnly m₂ m₃) : dataOnly m₁ m₃ := by
  obtain ⟨a₁, b₁, c₁, d₁, e₁, f₁⟩ := h₁
  obtain ⟨a₂, b₂, c₂, d₂, e₂, f₂⟩ := h₂
  exact ⟨a₂.trans a₁, b₂.trans b₁, c₂.trans c₁, d₂.trans d₁, e₂.trans e₁, f₂.trans f₁⟩

theorem setCell_dataOnly (m : DynamicMatrix) (row col : ℤ) (ch : Char) :
    dataOnly m (setCell m row col ch) := by
  unfold setCell
  split
  · exact ⟨rfl, rfl, rfl, rfl, rfl, rfl⟩
  · exact dataOnly_refl m

theorem dataOnly_of_ite {m a b : DynamicMatrix} {c : Prop} [Decidable c]
    (ha : dataOnly m a) (hb : dataOnly m b) : dataOnly m (if c then a else b) := by
  by_cases h : c
  · rwa [if_pos h]
  · rwa [if_neg h]

theorem bodyRowWrite_dataOnly (m : DynamicMatrix) (row col : ℤ) (sym : Char) :
    dataOnly m (bodyRowWrite m row col sym) := by
  unfold bodyRowWrite
  have h1 : dataOnly m (if 0 < col then setCell m row (col - 1) sym else m) :=
    dataOnly_of_ite (setCell_dataOnly ..) (dataOnly_refl m)
  have h2 := dataOnly_trans h1 (setCell_dataOnly _ row col sym)
  exact dataOnly_of_ite (dataOnly_trans h2 (setCell_dataOnly _ row (col + 1) sym)) h2

theorem foldl_dataOnly {β : Type} (f : DynamicMatrix → β → DynamicMatrix)
    (hf : ∀ s x, dataOnly s (f s x)) :
    ∀ (l : List β) (m : DynamicMatrix), dataOnly m (l.foldl f m) := by
  intro l
  induction l with
  | nil => intro m; exact dataOnly_refl m
  | cons a t ih =>
    intro m
    exact dataOnly_trans (hf m a) (ih (f m a))

theorem drawCandle_dataOnly (m : DynamicMatrix) (candle : PositionedCandle) :
    dataOnly m (drawCandle m candle) := by
  unfold drawCandle
  exact dataOnly_trans
    (dataOnly_trans
      (foldl_dataOnly _ (fun s x => setCell_dataOnly s x candle.column '|') _ m)
      (foldl_dataOnly _ (fun s x => bodyRowWrite_dataOnly s x candle.column _) _ _))
    (foldl_dataOnly _ (fun s x => setCell_dataOnly s x candle.column '|') _ _)

theorem redrawGo_dataOnly :
    ∀ (cs : List PositionedCandle) (m : DynamicMatrix) (col : ℤ),
      dataOnly m (redrawGo m col cs).1 := by
  intro cs
  induction cs with
  | nil => intro m col; exact dataOnly_refl m
  | cons c rest ih =>
    intro m col
    exact dataOnly_trans (drawCandle_dataOnly m _) (ih _ (col + 6))

/-! ### Well-formedness preservation -/

theorem setCell_WF {m : DynamicMatrix} (h : WF m) (row col : ℤ) (ch : Char) :
    WF (setCell m row col ch) := by
  obtain ⟨hlen, hrow⟩ := h
  unfold setCell
  split
  · refine ⟨by simpa using hlen, ?_⟩
    intro i hi
    simp only
    rw [list_getD_set]
    split_ifs with hcond
    · rw [List.length_set]
      exact hrow row.toNat (by omega)
    · exact hrow i hi
  · exact ⟨hlen, hrow⟩

theorem WF_of_ite {a b : DynamicMatrix} {c : Prop} [Decidable c]
    (ha : WF a) (hb : WF b) : WF (if c then a else b) := by
  by_cases h : c
  · rwa [if_pos h]
  · rwa [if_neg h]

theorem bodyRowWrite_WF {m : DynamicMatrix} (h : WF m) (row col : ℤ) (sym : Char) :
    WF (bodyRowWrite m row col sym) := by
  unfold bodyRowWrite
  have h1 : WF (if 0 < col then setCell m row (col - 1) sym else m) :=
    WF_of_ite (setCell_WF h ..) h
  have h2 := setCell_WF h1 row col sym
  exact WF_of_ite (setCell_WF h2 ..) h2

theorem foldl_WF {β : Type} (f : DynamicMatrix → β → DynamicMatrix)
    (hf : ∀ s x, WF s → WF (f s x)) :
    ∀ (l : List β) (m : DynamicMatrix), WF m → WF (l.foldl f m) := by
  intro l
  induction l with
  | nil => intro m h; exact h
  | cons a t ih =>
    intro m h
    exact ih (f m a) (hf m a h)

theorem drawCandle_WF {m : DynamicMatrix} (candle : PositionedCandle) (h : WF m) :
    WF (drawCandle m candle) := by
  unfold drawCandle
  exact foldl_WF _ (fun s x hs => setCell_WF hs ..) _ _
    (foldl_WF _ (fun s x hs => bodyRowWrite_WF hs ..) _ _
      (foldl_WF _ (fun s x hs => setCell_WF hs ..) _ _ h))

theorem redrawGo_WF :
    ∀ (cs : List PositionedCandle) (m : DynamicMatrix) (col : ℤ), WF m →
      WF (redrawGo m col cs).1 := by
  intro cs
  induction cs with
  | nil => intro m col h; exact h
  | cons c rest ih =>
    intro m col h
    exact ih _ (col + 6) (drawCandle_WF _ h)

theorem cleared_WF (m : DynamicMatrix) :
    WF { m with data := createEmptyMatrix m.width m.height } := by
  refine ⟨by simp [createEmptyMatrix], ?_⟩
  intro i hi
  simp only [createEmptyMatrix]
  rw [list_getD_replicate, if_pos hi, List.length_replicate]

/-! ### Cell-level characterization of the drawing primitives -/

theorem getCell_cleared (m : DynamicMatrix) (r c : ℕ) :
    getCell { m with data := createEmptyMatrix m.width m.height } r c = ' ' := by
  unfold getCell createEmptyMatrix
  simp only
  rw [list_getD_replicate]
  split_ifs
  · rw [list_getD_replicate]; split_ifs <;> rfl
  · rfl

theorem getCell_out_of_width {m : DynamicMatrix} (r c : ℕ)
    (hwf : WF m) (hc : m.width ≤ c) : getCell m r c = ' ' := by
  obtain ⟨hlen, hrow⟩ := hwf
  unfold getCell
  rcases Nat.lt_or_ge r m.height with h | h
  · exact list_getD_len_le _ _ _ (by rw [hrow r h]; exact hc)
  · rw [list_getD_len_le ([] : List Char) m.data r (by omega)]
    rfl

theorem getCell_setCell {m : DynamicMatrix} (row col : ℤ) (ch : Char) (r' c' : ℕ)
    (hwf : WF m) (hr : r' < m.height) (hc : c' < m.width) :
    getCell (setCell m row col ch) r' c' =
      if row = (r' : ℤ) ∧ col = (c' : ℤ) then ch else getCell m r' c' := by
  obtain ⟨hlen, hrow⟩ := hwf
  unfold setCell getCell
  split
  · next hg =>
    obtain ⟨hg0, hg1, hg2, hg3⟩ := hg
    simp only
    rw [list_getD_set]
    by_cases h4 : row = (r' : ℤ)
    · rw [if_pos ⟨by omega, by omega⟩, list_getD_set]
      have hlen2 : (m.data.getD row.toNat []).length = m.width := by
        have : row.toNat = r' := by omega
        rw [this]; exact hrow r' hr
      by_cases h5 : col = (c' : ℤ)
      · rw [if_pos ⟨by omega, by omega⟩, if_pos ⟨h4, h5⟩]
      · rw [if_neg (by intro hcon; exact h5 (by omega)), if_neg (by tauto)]
        have : row.toNat = r' := by omega
        rw [this]
    · rw [if_neg (by intro hcon; exact h4 (by omega)), if_neg (by tauto)]
  · next hg =>
    rw [if_neg]
    intro ⟨h4, h5⟩
    exact hg ⟨by omega, by omega, by omega, by omega⟩

theorem getCell_foldl_setCell (col : ℤ) (ch : Char) :
    ∀ (rows : List ℤ) (m : DynamicMatrix) (r' c' : ℕ), WF m → r' < m.height → c' < m.width →
      getCell (rows.foldl (fun s row => setCell s row col ch) m) r' c' =
        if (r' : ℤ) ∈ rows ∧ col = (c' : ℤ) then ch else getCell m r' c' := by
  intro rows
  induction rows with
  | nil =>
    intro m r' c' _ _ _
    simp
  | cons a rows ih =>
    intro m r' c' hwf hr hc
    have hdo := setCell_dataOnly m a col ch
    rw [List.foldl_cons,
      ih (setCell m a col ch) r' c' (setCell_WF hwf a col ch)
        (by rw [hdo.2.1]; exact hr) (by rw [hdo.1]; exact hc),
      getCell_setCell a col ch r' c' hwf hr hc]
    by_cases hm : (r' : ℤ) ∈ rows ∧ col = (c' : ℤ)
    · rw [if_pos hm, if_pos ⟨List.mem_cons_of_mem a hm.1, hm.2⟩]
    · rw [if_neg hm]
      by_cases ha : a = (r' : ℤ) ∧ col = (c' : ℤ)
      · rw [if_pos ha, if_pos ⟨ha.1 ▸ List.mem_cons_self a rows, ha.2⟩]
      · rw [if_neg ha, if_neg (by
          rintro ⟨hmem, hcol⟩
          rcases List.mem_cons.mp hmem with h | h
          · exact ha ⟨h.symm, hcol⟩
          · exact hm ⟨h, hcol⟩)]

theorem getCell_bodyRowWrite {m : DynamicMatrix} (row col : ℤ) (sym : Char) (r' c' : ℕ)
    (hwf : WF m) (hr : r' < m.height) (hc : c' < m.width) :
    getCell (bodyRowWrite m row col sym) r' c' =
      if row = (r' : ℤ) ∧
          (col = (c' : ℤ) ∨ (0 < col ∧ col - 1 = (c' : ℤ)) ∨
            (col < (m.width : ℤ) - 1 ∧ col + 1 = (c' : ℤ))) then
        sym
      else getCell m r' c' := by
  have h1do : dataOnly m (if 0 < col then setCell m row (col - 1) sym else m) :=
    dataOnly_of_ite (setCell_dataOnly ..) (dataOnly_refl m)
  have h1wf : WF (if 0 < col then setCell m row (col - 1) sym else m) :=
    WF_of_ite (setCell_WF hwf ..) hwf
  have h2do : dataOnly m
      (setCell (if 0 < col then setCell m row (col - 1) sym else m) row col sym) :=
    dataOnly_trans h1do (setCell_dataOnly _ row col sym)
  have h2wf : WF (setCell (if 0 < col then setCell m row (col - 1) sym else m) row col sym) :=
    setCell_WF h1wf row col sym
  have e1 : getCell (if 0 < col then setCell m row (col - 1) sym else m) r' c' =
      if 0 < col ∧ row = (r' : ℤ) ∧ col - 1 = (c' : ℤ) then sym else getCell m r' c' := by
    split
    · next hg =>
      rw [getCell_setCell row (col - 1) sym r' c' hwf hr hc]
      split_ifs <;> first | rfl | tauto
    · next hg =>
      rw [if_neg (by tauto)]
  have e2 : getCell (setCell (if 0 < col then setCell m row (col - 1) sym else m) row col sym)
        r' c' =
      if row = (r' : ℤ) ∧ col = (c' : ℤ) then sym
      else if 0 < col ∧ row = (r' : ℤ) ∧ col - 1 = (c' : ℤ) then sym
      else getCell m r' c' := by
    rw [getCell_setCell row col sym r' c' h1wf (by rw [h1do.2.1]; exact hr)
      (by rw [h1do.1]; exact hc), e1]
  simp only [bodyRowWrite]
  rw [h2do.1]
  by_cases hg : col < (m.width : ℤ) - 1
  · rw [if_pos hg, getCell_setCell row (col + 1) sym r' c' h2wf (by rw [h2do.2.1]; exact hr)
      (by rw [h2do.1]; exact hc), e2]
    split_ifs <;> first | rfl | omega
  · rw [if_neg hg, e2]
    split_ifs <;> first | rfl | omega

theorem getCell_foldl_bodyRowWrite (col : ℤ) (sym : Char) :
    ∀ (rows : List ℤ) (m : DynamicMatrix) (r' c' : ℕ), WF m → r' < m.height → c' < m.width →
      getCell (rows.foldl (fun s row => bodyRowWrite s row col sym) m) r' c' =
        if (r' : ℤ) ∈ rows ∧
            (col = (c' : ℤ) ∨ (0 < col ∧ col - 1 = (c' : ℤ)) ∨
              (col < (m.width : ℤ) - 1 ∧ col + 1 = (c' : ℤ))) then
          sym
        else getCell m r' c' := by
  intro rows
  induction rows with
  | nil =>
    intro m r' c' _ _ _
    simp
  | cons a rows ih =>
    intro m r' c' hwf hr hc
    have hdo := bodyRowWrite_dataOnly m a col sym
    rw [List.foldl_cons,
      ih (bodyRowWrite m a col sym) r' c' (bodyRowWrite_WF hwf a col sym)
        (by rw [hdo.2.1]; exact hr) (by rw [hdo.1]; exact hc),
      getCell_bodyRowWrite a col sym r' c' hwf hr hc, hdo.1]
    by_cases hcc : col = (c' : ℤ) ∨ (0 < col ∧ col - 1 = (c' : ℤ)) ∨
        (col < (m.width : ℤ) - 1 ∧ col + 1 = (c' : ℤ))
    · by_cases hm : (r' : ℤ) ∈ rows
      · rw [if_pos ⟨hm, hcc⟩, if_pos ⟨List.mem_cons_of_mem a hm, hcc⟩]
      · rw [if_neg (by tauto)]
        by_cases ha : a = (r' : ℤ)
        · rw [if_pos ⟨ha, hcc⟩, if_pos ⟨ha ▸ List.mem_cons_self a rows, hcc⟩]
        · rw [if_neg (by tauto), if_neg (by
            rintro ⟨hmem, _⟩
            rcases List.mem_cons.mp hmem with h | h
            · exact ha h.symm
            · exact hm h)]
    · rw [if_neg (by tauto), if_neg (by tauto), if_neg (by tauto)]

theorem getCell_draw3 (col : ℤ) (bSym : Char) (rows1 rows2 rows3 : List ℤ)
    (m : DynamicMatrix) (r' c' : ℕ) (hwf : WF m) (hr : r' < m.height) (hc : c' < m.width) :
    getCell (rows3.foldl (fun s row => setCell s row col '|')
      (rows2.foldl (fun s row => bodyRowWrite s row col bSym)
        (rows1.foldl (fun s row => setCell s row col '|') m))) r' c' =
      if (r' : ℤ) ∈ rows3 ∧ col = (c' : ℤ) then '|'
      else if (r' : ℤ) ∈ rows2 ∧
          (col = (c' : ℤ) ∨ (0 < col ∧ col - 1 = (c' : ℤ)) ∨
            (col < (m.width : ℤ) - 1 ∧ col + 1 = (c' : ℤ))) then bSym
      else if (r' : ℤ) ∈ rows1 ∧ col = (c' : ℤ) then '|'
      else getCell m r' c' := by
  have hdo1 : dataOnly m (rows1.foldl (fun s row => setCell s row col '|') m) :=
    foldl_dataOnly _ (fun s x => setCell_dataOnly ..) rows1 m
  have hwf1 : WF (rows1.foldl (fun s row => setCell s row col '|') m) :=
    foldl_WF _ (fun s x hs => setCell_WF hs ..) rows1 m hwf
  have hdo2 : dataOnly m (rows2.foldl (fun s row => bodyRowWrite s row col bSym)
      (rows1.foldl (fun s row => setCell s row col '|') m)) :=
    dataOnly_trans hdo1 (foldl_dataOnly _ (fun s x => bodyRowWrite_dataOnly ..) rows2 _)
  have hwf2 : WF (rows2.foldl (fun s row => bodyRowWrite s row col bSym)
      (rows1.foldl (fun s row => setCell s row col '|') m)) :=
    foldl_WF _ (fun s x hs => bodyRowWrite_WF hs ..) rows2 _ hwf1
  rw [getCell_foldl_setCell col '|' rows3 _ r' c' hwf2
      (by rw [hdo2.2.1]; exact hr) (by rw [hdo2.1]; exact hc),
    getCell_foldl_bodyRowWrite col bSym rows2 _ r' c' hwf1
      (by rw [hdo1.2.1]; exact hr) (by rw [hdo1.1]; exact hc),
    getCell_foldl_setCell col '|' rows1 m r' c' hwf hr hc,
    hdo1.1]

/-- Full cell-level description of `drawCandle`: lower-wick writes win over
body writes, which win over upper-wick writes (they are in fact disjoint),
and every write is bounds-checked. -/
theorem getCell_drawCandle (m : DynamicMatrix) (candle : PositionedCandle) (r' c' : ℕ)
    (hwf : WF m) (hr : r' < m.height) (hc : c' < m.width) :
    getCell (drawCandle m candle) r' c' =
      if candle.column = (c' : ℤ) ∧
          max (priceToRow m candle.openPrice) (priceToRow m candle.closePrice) < (r' : ℤ) ∧
          (r' : ℤ) ≤ priceToRow m candle.lowPrice then '|'
      else if min (priceToRow m candle.openPrice) (priceToRow m candle.closePrice) ≤ (r' : ℤ) ∧
          (r' : ℤ) ≤ max (priceToRow m candle.openPrice) (priceToRow m candle.closePrice) ∧
          (candle.column = (c' : ℤ) ∨ (0 < candle.column ∧ candle.column - 1 = (c' : ℤ)) ∨
            (candle.column < (m.width : ℤ) - 1 ∧ candle.column + 1 = (c' : ℤ))) then
        (if candle.type = CandleType.bullish then '█' else '░')
      else if candle.column = (c' : ℤ) ∧ priceToRow m candle.highPrice ≤ (r' : ℤ) ∧
          (r' : ℤ) < min (priceToRow m candle.openPrice) (priceToRow m candle.closePrice) then '|'
      else getCell m r' c' := by
  simp only [drawCandle]
  rw [getCell_draw3 candle.column (if candle.type = CandleType.bullish then '█' else '░')
    (intRange (priceToRow m candle.highPrice)
      (min (priceToRow m candle.openPrice) (priceToRow m candle.closePrice)))
    (intRange (min (priceToRow m candle.openPrice) (priceToRow m candle.closePrice))
      (max (priceToRow m candle.openPrice) (priceToRow m candle.closePrice) + 1))
    (intRange (max (priceToRow m candle.openPrice) (priceToRow m candle.closePrice) + 1)
      (priceToRow m candle.lowPrice + 1))
    m r' c' hwf hr hc]
  simp only [mem_intRange]
  split_ifs <;> first | rfl | omega

/-! ### Properties of the price-to-row mapping -/

theorem priceToRow_eq (m : DynamicMatrix) (p : ℚ) :
    priceToRow m p =
      if m.candles = [] then 0
      else if m.maxPrice - m.minPrice = 0 then (m.height : ℤ) / 2
      else max (m.buffer : ℤ)
        (min ((m.buffer : ℤ) + round ((m.maxPrice - p) / (m.maxPrice - m.minPrice) *
            ((((m.height : ℤ) - 2 * (m.buffer : ℤ)) : ℤ) : ℚ)))
          ((m.height : ℤ) - (m.buffer : ℤ) - 1)) := rfl

theorem priceToRow_mem_band {m : DynamicMatrix} (p : ℚ) (h1 : m.candles ≠ [])
    (hb1 : (m.buffer : ℤ) ≤ (m.height : ℤ) / 2)
    (hb2 : (m.height : ℤ) / 2 ≤ (m.height : ℤ) - m.buffer - 1) :
    (m.buffer : ℤ) ≤ priceToRow m p ∧ priceToRow m p ≤ (m.height : ℤ) - m.buffer - 1 := by
  rw [priceToRow_eq, if_neg h1]
  split_ifs
  · exact ⟨hb1, hb2⟩
  · exact ⟨le_max_left _ _, max_le (by omega) (min_le_right _ _)⟩

theorem priceToRow_anti {m : DynamicMatrix} {p1 p2 : ℚ} (hp : p1 ≤ p2)
    (h2 : m.minPrice ≤ m.maxPrice) (h3 : 2 * (m.buffer : ℤ) ≤ (m.height : ℤ)) :
    priceToRow m p2 ≤ priceToRow m p1 := by
  rw [priceToRow_eq, priceToRow_eq]
  split_ifs with hempty h0
  · exact le_refl _
  · exact le_refl _
  · have hrange : (0 : ℚ) < m.maxPrice - m.minPrice :=
      lt_of_le_of_ne (by linarith) (Ne.symm h0)
    have haH : (0 : ℚ) ≤ ((((m.height : ℤ) - 2 * (m.buffer : ℤ)) : ℤ) : ℚ) := by
      have h4 : (0 : ℤ) ≤ (m.height : ℤ) - 2 * (m.buffer : ℤ) := by omega
      exact_mod_cast h4
    refine max_le_max (le_refl _) (min_le_min ?_ (le_refl _))
    refine add_le_add_left ?_ _
    rw [round_eq, round_eq]
    refine Int.floor_le_floor (add_le_add_right ?_ _)
    refine mul_le_mul_of_nonneg_right ?_ haH
    refine div_le_div_of_nonneg_right ?_ hrange.le
    linarith

/-! ### Structure of the redraw loop -/

theorem redrawGo_nil (m : DynamicMatrix) (col : ℤ) : redrawGo m col [] = (m, []) := rfl

theorem redrawGo_cons_fst (m : DynamicMatrix) (col : ℤ) (c : PositionedCandle)
    (rest : List PositionedCandle) :
    (redrawGo m col (c :: rest)).1 =
      (redrawGo (drawCandle m { c with column := col }) (col + 6) rest).1 := rfl

theorem redrawGo_cons_snd (m : DynamicMatrix) (col : ℤ) (c : PositionedCandle)
    (rest : List PositionedCandle) :
    (redrawGo m col (c :: rest)).2 =
      { c with column := col } ::
        (redrawGo (drawCandle m { c with column := col }) (col + 6) rest).2 := rfl

/-- The redraw loop only changes each candle's `column`, so any observation
that ignores `column` is preserved. -/
theorem redrawGo_snd_map {α : Type} (g : PositionedCandle → α)
    (hg : ∀ (pc : PositionedCandle) (col : ℤ), g { pc with column := col } = g pc) :
    ∀ (cs : List PositionedCandle) (m : DynamicMatrix) (col : ℤ),
      (redrawGo m col cs).2.map g = cs.map g := by
  intro cs
  induction cs with
  | nil => intro m col; rfl
  | cons c rest ih =>
    intro m col
    rw [redrawGo_cons_snd, List.map_cons, List.map_cons, hg, ih]

theorem redrawGo_snd_length :
    ∀ (cs : List PositionedCandle) (m : DynamicMatrix) (col : ℤ),
      (redrawGo m col cs).2.length = cs.length := by
  intro cs
  induction cs with
  | nil => intro m col; rfl
  | cons c rest ih =>
    intro m col
    rw [redrawGo_cons_snd, List.length_cons, List.length_cons, ih]

/-- Rows in the reserved buffer bands stay blank through the redraw loop:
every glyph lands between `priceToRow`-mapped rows, which the clamp keeps
inside `[buffer, height - buffer - 1]`. -/
theorem redrawGo_blank :
    ∀ (cs : List PositionedCandle) (m : DynamicMatrix) (col : ℤ) (r cl : ℕ),
      WF m → m.candles ≠ [] →
      (m.buffer : ℤ) ≤ (m.height : ℤ) / 2 →
      (m.height : ℤ) / 2 ≤ (m.height : ℤ) - m.buffer - 1 →
      r < m.height →
      ((r : ℤ) < (m.buffer : ℤ) ∨ (m.height : ℤ) - (m.buffer : ℤ) ≤ (r : ℤ)) →
      getCell m r cl = ' ' →
      getCell (redrawGo m col cs).1 r cl = ' ' := by
  intro cs
  induction cs with
  | nil =>
    intro m col r cl _ _ _ _ _ _ hblank
    exact hblank
  | cons c rest ih =>
    intro m col r cl hwf hne hb1 hb2 hr hband hblank
    rw [redrawGo_cons_fst]
    have hdo := drawCandle_dataOnly m { c with column := col }
    have hwf' := drawCandle_WF { c with column := col } hwf
    have hblank' : getCell (drawCandle m { c with column := col }) r cl = ' ' := by
      by_cases hcl : cl < m.width
      · rw [getCell_drawCandle m { c with column := col } r cl hwf hr hcl]
        have hbo := priceToRow_mem_band (m := m) { c with column := col }.openPrice hne hb1 hb2
        have hbc := priceToRow_mem_band (m := m) { c with column := col }.closePrice hne hb1 hb2
        have hbh := priceToRow_mem_band (m := m) { c with column := col }.highPrice hne hb1 hb2
        have hbl := priceToRow_mem_band (m := m) { c with column := col }.lowPrice hne hb1 hb2
        have hmin1 : (m.buffer : ℤ) ≤ min (priceToRow m { c with column := col }.openPrice)
            (priceToRow m { c with column := col }.closePrice) := le_min hbo.1 hbc.1
        have hmax1 : max (priceToRow m { c with column := col }.openPrice)
            (priceToRow m { c with column := col }.closePrice) ≤ (m.height : ℤ) - m.buffer - 1 :=
          max_le hbo.2 hbc.2
        have hminmax : min (priceToRow m { c with column := col }.openPrice)
              (priceToRow m { c with column := col }.closePrice) ≤
            max (priceToRow m { c with column := col }.openPrice)
              (priceToRow m { c with column := col }.closePrice) :=
          min_le_max
        rw [if_neg (by omega), if_neg (by omega), if_neg (by omega)]
        exact hblank
      · exact getCell_out_of_width r cl hwf' (by rw [hdo.1]; omega)
    have := ih (drawCandle m { c with column := col }) (col + 6) r cl hwf'
      (by rw [hdo.2.2.2.1]; exact hne)
      (by rw [hdo.2.2.1, hdo.2.1]; exact hb1)
      (by rw [hdo.2.2.1, hdo.2.1]; exact hb2)
      (by rw [hdo.2.1]; exact hr)
      (by rw [hdo.2.2.1, hdo.2.1]; exact hband)
      hblank'
    exact this

/-! ### Field bookkeeping for expansion, redraw and the add operations -/

theorem expandMatrix_fields (m : DynamicMatrix) (nw nh : ℤ) :
    (expandMatrix m nw nh).buffer = m.buffer ∧ (expandMatrix m nw nh).candles = m.candles ∧
    (expandMatrix m nw nh).minPrice = m.minPrice ∧ (expandMatrix m nw nh).maxPrice = m.maxPrice := by
  unfold expandMatrix
  split
  · exact ⟨rfl, rfl, rfl, rfl⟩
  · exact ⟨rfl, rfl, rfl, rfl⟩

theorem expandMatrix_width_ge (m : DynamicMatrix) (nw nh : ℤ) :
    m.width ≤ (expandMatrix m nw nh).width := by
  unfold expandMatrix
  split
  · exact le_refl _
  · show m.width ≤ (max (m.width : ℤ) nw).toNat
    omega

theorem expandMatrix_height_ge (m : DynamicMatrix) (nw nh : ℤ) :
    m.height ≤ (expandMatrix m nw nh).height := by
  unfold expandMatrix
  split
  · exact le_refl _
  · show m.height ≤ (max (m.height : ℤ) nh).toNat
    omega

theorem getCell_expandMatrix (m : DynamicMatrix) (nw nh : ℤ) (r cl : ℕ)
    (h3 : r < m.height) (h4 : cl < m.width) :
    getCell (expandMatrix m nw nh) r cl = getCell m r cl := by
  unfold expandMatrix
  split
  · rfl
  · simp only [getCell]
    rw [list_getD_map_range, if_pos (by omega), list_getD_map_range, if_pos (by omega),
      if_pos ⟨h3, h4⟩]

theorem ite_expand_fields (m : DynamicMatrix) (c : Prop) [Decidable c] (nw nh : ℤ) :
    (if c then expandMatrix m nw nh else m).buffer = m.buffer ∧
    (if c then expandMatrix m nw nh else m).candles = m.candles ∧
    (if c then expandMatrix m nw nh else m).minPrice = m.minPrice ∧
    (if c then expandMatrix m nw nh else m).maxPrice = m.maxPrice ∧
    m.width ≤ (if c then expandMatrix m nw nh else m).width ∧
    m.height ≤ (if c then expandMatrix m nw nh else m).height := by
  split
  · exact ⟨(expandMatrix_fields ..).1, (expandMatrix_fields ..).2.1,
      (expandMatrix_fields ..).2.2.1, (expandMatrix_fields ..).2.2.2,
      expandMatrix_width_ge .., expandMatrix_height_ge ..⟩
  · exact ⟨rfl, rfl, rfl, rfl, le_refl _, le_refl _⟩

theorem redrawAllCandles_fields (m : DynamicMatrix) :
    (redrawAllCandles m).width = m.width ∧ (redrawAllCandles m).height = m.height ∧
    (redrawAllCandles m).buffer = m.buffer ∧ (redrawAllCandles m).minPrice = m.minPrice ∧
    (redrawAllCandles m).maxPrice = m.maxPrice := by
  have hdo := redrawGo_dataOnly m.candles { m with data := createEmptyMatrix m.width m.height } 3
  exact ⟨hdo.1, hdo.2.1, hdo.2.2.1, hdo.2.2.2.2.1, hdo.2.2.2.2.2⟩

theorem redrawAllCandles_candles_map {α : Type} (g : PositionedCandle → α)
    (hg : ∀ (pc : PositionedCandle) (col : ℤ), g { pc with column := col } = g pc)
    (m : DynamicMatrix) :
    (redrawAllCandles m).candles.map g = m.candles.map g :=
  redrawGo_snd_map g hg m.candles { m with data := createEmptyMatrix m.width m.height } 3

theorem redrawAllCandles_candles_length (m : DynamicMatrix) :
    (redrawAllCandles m).candles.length = m.candles.length :=
  redrawGo_snd_length m.candles { m with data := createEmptyMatrix m.width m.height } 3

theorem getCell_redrawAllCandles (m : DynamicMatrix) (r cl : ℕ) :
    getCell (redrawAllCandles m) r cl =
      getCell (redrawGo { m with data := createEmptyMatrix m.width m.height } 3 m.candles).1
        r cl := rfl

theorem redrawAllCandles_width (m : DynamicMatrix) :
    (redrawAllCandles m).width = m.width := (redrawAllCandles_fields m).1

theorem redrawAllCandles_height (m : DynamicMatrix) :
    (redrawAllCandles m).height = m.height := (redrawAllCandles_fields m).2.1

theorem redrawAllCandles_buffer (m : DynamicMatrix) :
    (redrawAllCandles m).buffer = m.buffer := (redrawAllCandles_fields m).2.2.1

theorem redrawAllCandles_minPrice (m : DynamicMatrix) :
    (redrawAllCandles m).minPrice = m.minPrice := (redrawAllCandles_fields m).2.2.2.1

theorem redrawAllCandles_maxPrice (m : DynamicMatrix) :
    (redrawAllCandles m).maxPrice = m.maxPrice := (redrawAllCandles_fields m).2.2.2.2

theorem expandIfNeeded_fields (m : DynamicMatrix) (c : Prop) [Decidable c] (nw nh : ℤ) :
    (expandIfNeeded m c nw nh).buffer = m.buffer ∧
    (expandIfNeeded m c nw nh).candles = m.candles ∧
    (expandIfNeeded m c nw nh).minPrice = m.minPrice ∧
    (expandIfNeeded m c nw nh).maxPrice = m.maxPrice ∧
    m.width ≤ (expandIfNeeded m c nw nh).width ∧
    m.height ≤ (expandIfNeeded m c nw nh).height := ite_expand_fields m c nw nh

theorem expandIfNeeded_buffer (m : DynamicMatrix) (c : Prop) [Decidable c] (nw nh : ℤ) :
    (expandIfNeeded m c nw nh).buffer = m.buffer := (expandIfNeeded_fields m c nw nh).1

theorem expandIfNeeded_candles (m : DynamicMatrix) (c : Prop) [Decidable c] (nw nh : ℤ) :
    (expandIfNeeded m c nw nh).candles = m.candles := (expandIfNeeded_fields m c nw nh).2.1

theorem expandIfNeeded_minPrice (m : DynamicMatrix) (c : Prop) [Decidable c] (nw nh : ℤ) :
    (expandIfNeeded m c nw nh).minPrice = m.minPrice := (expandIfNeeded_fields m c nw nh).2.2.1

theorem expandIfNeeded_maxPrice (m : DynamicMatrix) (c : Prop) [Decidable c] (nw nh : ℤ) :
    (expandIfNeeded m c nw nh).maxPrice = m.maxPrice :=
  (expandIfNeeded_fields m c nw nh).2.2.2.1

theorem expandIfNeeded_width_ge (m : DynamicMatrix) (c : Prop) [Decidable c] (nw nh : ℤ) :
    m.width ≤ (expandIfNeeded m c nw nh).width := (expandIfNeeded_fields m c nw nh).2.2.2.2.1

theorem expandIfNeeded_height_ge (m : DynamicMatrix) (c : Prop) [Decidable c] (nw nh : ℤ) :
    m.height ≤ (expandIfNeeded m c nw nh).height := (expandIfNeeded_fields m c nw nh).2.2.2.2.2

theorem appendCandle_width (m : DynamicMatrix) (pc : PositionedCandle) :
    (appendCandle m pc).width = m.width := rfl

theorem appendCandle_height (m : DynamicMatrix) (pc : PositionedCandle) :
    (appendCandle m pc).height = m.height := rfl

theorem appendCandle_buffer (m : DynamicMatrix) (pc : PositionedCandle) :
    (appendCandle m pc).buffer = m.buffer := rfl

theorem appendCandle_candles (m : DynamicMatrix) (pc : PositionedCandle) :
    (appendCandle m pc).candles = m.candles ++ [pc] := rfl

theorem setPriceBounds_width (m : DynamicMatrix) (mn mx : ℚ) :
    (setPriceBounds m mn mx).width = m.width := rfl

theorem setPriceBounds_height (m : DynamicMatrix) (mn mx : ℚ) :
    (setPriceBounds m mn mx).height = m.height := rfl

theorem setPriceBounds_buffer (m : DynamicMatrix) (mn mx : ℚ) :
    (setPriceBounds m mn mx).buffer = m.buffer := rfl

theorem setPriceBounds_candles (m : DynamicMatrix) (mn mx : ℚ) :
    (setPriceBounds m mn mx).candles = m.candles := rfl

theorem setPriceBounds_minPrice (m : DynamicMatrix) (mn mx : ℚ) :
    (setPriceBounds m mn mx).minPrice = mn := rfl

theorem setPriceBounds_maxPrice (m : DynamicMatrix) (mn mx : ℚ) :
    (setPriceBounds m mn mx).maxPrice = mx := rfl

theorem addFirstCandle_fields (m : DynamicMatrix) (candle : Candle) :
    (addFirstCandle m candle).buffer = m.buffer ∧
    m.width ≤ (addFirstCandle m candle).width ∧ m.height ≤ (addFirstCandle m candle).height := by
  simp only [addFirstCandle]
  refine ⟨?_, ?_, ?_⟩
  · rw [redrawAllCandles_buffer, setPriceBounds_buffer, appendCandle_buffer,
      expandIfNeeded_buffer]
  · rw [redrawAllCandles_width, setPriceBounds_width, appendCandle_width]
    exact expandIfNeeded_width_ge ..
  · rw [redrawAllCandles_height, setPriceBounds_height, appendCandle_height]
    exact expandIfNeeded_height_ge ..

theorem redrawAllCandles_candles (x : DynamicMatrix) :
    (redrawAllCandles x).candles =
      (redrawGo { x with data := createEmptyMatrix x.width x.height } 3 x.candles).2 := rfl

theorem addCandle_of_empty (m : DynamicMatrix) (candle : Candle) (h : m.candles = []) :
    addCandle m candle = addFirstCandle m candle := by
  unfold addCandle
  exact dif_pos h

theorem addFirstCandle_bounds (m : DynamicMatrix) (candle : Candle) :
    (addFirstCandle m candle).minPrice = 100 - candle.bodySize - candle.lowerWick ∧
    (addFirstCandle m candle).maxPrice = 100 + candle.upperWick := by
  simp only [addFirstCandle]
  rw [redrawAllCandles_minPrice, redrawAllCandles_maxPrice, setPriceBounds_minPrice,
    setPriceBounds_maxPrice]
  exact ⟨rfl, rfl⟩

theorem addFirstCandle_length (m : DynamicMatrix) (candle : Candle) :
    (addFirstCandle m candle).candles.length = m.candles.length + 1 := by
  simp only [addFirstCandle]
  rw [redrawAllCandles_candles_length, setPriceBounds_candles, appendCandle_candles,
    List.length_append, expandIfNeeded_candles]
  rfl

theorem ne_nil_of_length_succ {α : Type} {l : List α} {n : ℕ} (h : l.length = n + 1) :
    l ≠ [] := by
  intro hcon
  rw [hcon] at h
  simp at h

/-- The single positioned candle produced by `addFirstCandle` on an empty
session (its column is reassigned to 3 by the redraw, the value it already
has). -/
theorem addFirstCandle_candles_empty (m : DynamicMatrix) (candle : Candle)
    (h : m.candles = []) :
    (addFirstCandle m candle).candles =
      [{ candle with
          column := 3
          highPrice := 100 + candle.upperWick
          openPrice := if candle.type = CandleType.bullish then 100 - (candle.bodySize : ℚ) else 100
          closePrice := if candle.type = CandleType.bullish then 100 else 100 - (candle.bodySize : ℚ)
          lowPrice := 100 - candle.bodySize - candle.lowerWick }] := by
  simp only [addFirstCandle]
  rw [redrawAllCandles_candles]
  rw [setPriceBounds_candles, appendCandle_candles, expandIfNeeded_candles, h, List.nil_append]
  rfl

theorem addCandle_fields (m : DynamicMatrix) (candle : Candle) :
    (addCandle m candle).buffer = m.buffer ∧
    m.width ≤ (addCandle m candle).width ∧ m.height ≤ (addCandle m candle).height := by
  simp only [addCandle]
  split
  · exact addFirstCandle_fields m candle
  · refine ⟨?_, ?_, ?_⟩
    · rw [redrawAllCandles_buffer, appendCandle_buffer, expandIfNeeded_buffer,
        setPriceBounds_buffer]
    · rw [redrawAllCandles_width, appendCandle_width]
      exact le_trans (by rw [setPriceBounds_width]) (expandIfNeeded_width_ge ..)
    · rw [redrawAllCandles_height, appendCandle_height]
      exact le_trans (by rw [setPriceBounds_height]) (expandIfNeeded_height_ge ..)

theorem redrawAllCandles_blank (x : DynamicMatrix) (r cl : ℕ)
    (hne : x.candles ≠ [])
    (hb1 : (x.buffer : ℤ) ≤ (x.height : ℤ) / 2)
    (hb2 : (x.height : ℤ) / 2 ≤ (x.height : ℤ) - x.buffer - 1)
    (hr : r < x.height)
    (hband : (r : ℤ) < (x.buffer : ℤ) ∨ (x.height : ℤ) - (x.buffer : ℤ) ≤ (r : ℤ)) :
    getCell (redrawAllCandles x) r cl = ' ' := by
  rw [getCell_redrawAllCandles]
  exact redrawGo_blank x.candles _ 3 r cl (cleared_WF x) hne hb1 hb2 hr hband
    (getCell_cleared x r cl)

/-! ### The claims -/

/-- C9: calling `addCandle` on an empty session does not fail and leaves the
session in exactly the state `addFirstCandle` produces on it. -/
theorem c9_addCandle_empty_delegates (m : DynamicMatrix) (candle : Candle)
    (h : m.candles = []) : addCandle m candle = addFirstCandle m candle :=
  addCandle_of_empty m candle h

theorem c9_addCandle_empty_delegates_witness :
    DynamicMatrix.initial.candles = [] ∧
    addCandle DynamicMatrix.initial ⟨CandleType.bullish, 2, 1, 1⟩ =
      addFirstCandle DynamicMatrix.initial ⟨CandleType.bullish, 2, 1, 1⟩ :=
  ⟨rfl, c9_addCandle_empty_delegates DynamicMatrix.initial _ rfl⟩

/-- C2 (counterexample): on the empty initial session `priceToRow` returns
`0`, not the buffer constant `1`. -/
theorem c2_counterexample :
    priceToRow DynamicMatrix.initial 100 ≠ (DynamicMatrix.initial.buffer : ℤ) := by
  decide

/-- C2 (amended): `priceToRow` returns `0` when the candle sequence is empty,
and `⌊height / 2⌋` (the vertical center) when the sequence is non-empty and
`maxPrice = minPrice`, for every price argument. -/
theorem c2_priceToRow_degenerate (m : DynamicMatrix) (price : ℚ)
    (h : m.candles = [] ∨ m.maxPrice = m.minPrice) :
    priceToRow m price = if m.candles = [] then 0 else (m.height : ℤ) / 2 := by
  rw [priceToRow_eq]
  rcases h with h | h
  · rw [if_pos h, if_pos h]
  · by_cases he : m.candles = []
    · rw [if_pos he, if_pos he]
    · rw [if_neg he, if_neg he, if_pos (sub_eq_zero.mpr h)]

theorem c2_priceToRow_degenerate_witness :
    (DynamicMatrix.initial.candles = [] ∨
      DynamicMatrix.initial.maxPrice = DynamicMatrix.initial.minPrice) ∧
    priceToRow DynamicMatrix.initial 100 =
      if DynamicMatrix.initial.candles = [] then 0 else (DynamicMatrix.initial.height : ℤ) / 2 :=
  ⟨Or.inl rfl, c2_priceToRow_degenerate DynamicMatrix.initial 100 (Or.inl rfl)⟩

/-- C5: the first candle added to an empty session is anchored at the
baseline 100: `highPrice = 100 + upperWick`, `lowPrice = 100 - bodySize -
lowerWick`, bullish opens at `100 - bodySize` and closes at `100`, bearish
opens at `100` and closes at `100 - bodySize`; afterwards `minPrice =
lowPrice` and `maxPrice = highPrice`. -/
theorem c5_addFirstCandle_baseline (m : DynamicMatrix) (candle : Candle)
    (h : m.candles = []) :
    ((addFirstCandle m candle).candles.map
        (fun pc => (pc.highPrice, pc.openPrice, pc.closePrice, pc.lowPrice))).getLast? =
      some (((100 : ℚ) + candle.upperWick),
        (if candle.type = CandleType.bullish then 100 - (candle.bodySize : ℚ) else 100),
        (if candle.type = CandleType.bullish then (100 : ℚ) else 100 - (candle.bodySize : ℚ)),
        ((100 : ℚ) - candle.bodySize - candle.lowerWick)) ∧
    (addFirstCandle m candle).minPrice = 100 - candle.bodySize - candle.lowerWick ∧
    (addFirstCandle m candle).maxPrice = 100 + candle.upperWick := by
  refine ⟨?_, (addFirstCandle_bounds m candle).1, (addFirstCandle_bounds m candle).2⟩
  rw [addFirstCandle_candles_empty m candle h]
  rfl

theorem c5_addFirstCandle_baseline_witness :
    DynamicMatrix.initial.candles = [] ∧
    (((addFirstCandle DynamicMatrix.initial ⟨CandleType.bearish, 3, 1, 2⟩).candles.map
        (fun pc => (pc.highPrice, pc.openPrice, pc.closePrice, pc.lowPrice))).getLast? =
      some (((100 : ℚ) + (1 : ℕ)),
        (if CandleType.bearish = CandleType.bullish then 100 - ((3 : ℕ) : ℚ) else 100),
        (if CandleType.bearish = CandleType.bullish then (100 : ℚ) else 100 - ((3 : ℕ) : ℚ)),
        ((100 : ℚ) - (3 : ℕ) - (2 : ℕ))) ∧
      (addFirstCandle DynamicMatrix.initial ⟨CandleType.bearish, 3, 1, 2⟩).minPrice =
        ((100 : ℚ) - (3 : ℕ) - (2 : ℕ)) ∧
      (addFirstCandle DynamicMatrix.initial ⟨CandleType.bearish, 3, 1, 2⟩).maxPrice =
        ((100 : ℚ) + (1 : ℕ))) :=
  ⟨rfl, c5_addFirstCandle_baseline DynamicMatrix.initial _ rfl⟩

/-- C10: `addFirstCandle` on a non-empty session does not fail and performs no
emptiness check: it appends a baseline-anchored candle (ignoring the previous
candle's `closePrice`) and overwrites `minPrice`/`maxPrice` with exactly the
new candle's `lowPrice`/`highPrice`, discarding the accumulated bounds. -/
theorem c10_addFirstCandle_nonempty (m : DynamicMatrix) (candle : Candle)
    (_h : m.candles ≠ []) :
    (addFirstCandle m candle).candles.length = m.candles.length + 1 ∧
    ((addFirstCandle m candle).candles.map
        (fun pc => (pc.highPrice, pc.openPrice, pc.closePrice, pc.lowPrice))).getLast? =
      some (((100 : ℚ) + candle.upperWick),
        (if candle.type = CandleType.bullish then 100 - (candle.bodySize : ℚ) else 100),
        (if candle.type = CandleType.bullish then (100 : ℚ) else 100 - (candle.bodySize : ℚ)),
        ((100 : ℚ) - candle.bodySize - candle.lowerWick)) ∧
    (addFirstCandle m candle).minPrice = 100 - candle.bodySize - candle.lowerWick ∧
    (addFirstCandle m candle).maxPrice = 100 + candle.upperWick := by
  refine ⟨addFirstCandle_length m candle, ?_,
    (addFirstCandle_bounds m candle).1, (addFirstCandle_bounds m candle).2⟩
  simp only [addFirstCandle]
  rw [redrawAllCandles_candles_map
      (fun pc => (pc.highPrice, pc.openPrice, pc.closePrice, pc.lowPrice))
      (fun pc col => rfl), setPriceBounds_candles, appendCandle_candles, List.map_append]
  simp only [List.map_cons, List.map_nil]
  rw [List.getLast?_concat]

theorem c10_addFirstCandle_nonempty_witness :
    ((addFirstCandle DynamicMatrix.initial ⟨CandleType.bearish, 3, 1, 2⟩).candles ≠ [] ∧
      (addFirstCandle (addFirstCandle DynamicMatrix.initial ⟨CandleType.bearish, 3, 1, 2⟩)
        ⟨CandleType.bullish, 4, 0, 1⟩).candles.length =
        (addFirstCandle DynamicMatrix.initial ⟨CandleType.bearish, 3, 1, 2⟩).candles.length + 1) ∧
    (addFirstCandle (addFirstCandle DynamicMatrix.initial ⟨CandleType.bearish, 3, 1, 2⟩)
      ⟨CandleType.bullish, 4, 0, 1⟩).minPrice = ((100 : ℚ) - (4 : ℕ) - (1 : ℕ)) := by
  have hne : (addFirstCandle DynamicMatrix.initial ⟨CandleType.bearish, 3, 1, 2⟩).candles ≠ [] :=
    ne_nil_of_length_succ (addFirstCandle_length DynamicMatrix.initial _)
  have hmain := c10_addFirstCandle_nonempty
    (addFirstCandle DynamicMatrix.initial ⟨CandleType.bearish, 3, 1, 2⟩)
    ⟨CandleType.bullish, 4, 0, 1⟩ hne
  exact ⟨⟨hne, hmain.1⟩, hmain.2.2.1⟩

/-- C1: for a candle added with `addCandle` to a non-empty session, its
`openPrice` is the previous candle's `closePrice` plus the separation unit 1
when both are bullish, minus 1 when both are bearish, and exactly the
previous close when the directions differ. -/
theorem c1_open_close_rule (m : DynamicMatrix) (candle : Candle)
    (prev : PositionedCandle) (h : m.candles.getLast? = some prev) :
    ((addCandle m candle).candles.map (fun pc => pc.openPrice)).getLast? =
      some (if prev.type = CandleType.bullish ∧ candle.type = CandleType.bullish then
          prev.closePrice + 1
        else if prev.type = CandleType.bearish ∧ candle.type = CandleType.bearish then
          prev.closePrice - 1
        else prev.closePrice) := by
  have hne : m.candles ≠ [] := by
    intro hh
    rw [hh] at h
    simp at h
  have hlast : m.candles.getLast hne = prev := by
    rw [List.getLast?_eq_getLast _ hne] at h
    exact Option.some.inj h
  simp only [addCandle, dif_neg hne]
  rw [redrawAllCandles_candles_map (fun pc => pc.openPrice) (fun pc col => rfl),
    appendCandle_candles, List.map_append]
  simp only [List.map_cons, List.map_nil]
  rw [List.getLast?_concat, hlast]

theorem c1_open_close_rule_witness :
    ((addCandle DynamicMatrix.initial ⟨CandleType.bearish, 3, 1, 2⟩).candles.getLast? =
      some ⟨⟨CandleType.bearish, 3, 1, 2⟩, 3, 100 + (1 : ℕ),
        (if CandleType.bearish = CandleType.bullish then 100 - ((3 : ℕ) : ℚ) else 100),
        (if CandleType.bearish = CandleType.bullish then (100 : ℚ) else 100 - ((3 : ℕ) : ℚ)),
        100 - (3 : ℕ) - (2 : ℕ)⟩) ∧
    ((addCandle (addCandle DynamicMatrix.initial ⟨CandleType.bearish, 3, 1, 2⟩)
        ⟨CandleType.bullish, 2, 1, 1⟩).candles.map (fun pc => pc.openPrice)).getLast? =
      some (if CandleType.bearish = CandleType.bullish ∧ CandleType.bullish = CandleType.bullish
        then (if CandleType.bearish = CandleType.bullish then (100 : ℚ) else 100 - ((3 : ℕ) : ℚ)) + 1
        else if CandleType.bearish = CandleType.bearish ∧ CandleType.bullish = CandleType.bearish
        then (if CandleType.bearish = CandleType.bullish then (100 : ℚ) else 100 - ((3 : ℕ) : ℚ)) - 1
        else (if CandleType.bearish = CandleType.bullish then (100 : ℚ) else 100 - ((3 : ℕ) : ℚ))) := by
  have hlast : (addCandle DynamicMatrix.initial ⟨CandleType.bearish, 3, 1, 2⟩).candles.getLast? =
      some ⟨⟨CandleType.bearish, 3, 1, 2⟩, 3, 100 + (1 : ℕ),
        (if CandleType.bearish = CandleType.bullish then 100 - ((3 : ℕ) : ℚ) else 100),
        (if CandleType.bearish = CandleType.bullish then (100 : ℚ) else 100 - ((3 : ℕ) : ℚ)),
        100 - (3 : ℕ) - (2 : ℕ)⟩ := by
    rw [addCandle_of_empty _ _ rfl, addFirstCandle_candles_empty _ _ rfl]
    rfl
  exact ⟨hlast, c1_open_close_rule _ ⟨CandleType.bullish, 2, 1, 1⟩ _ hlast⟩

/-- C6: a single bearish candle with body 3, upper wick 1, lower wick 2 added
to the empty session yields prices high 101, open 100, close 97, low 95, and
the grid grows from the default height 7 to at least 8. -/
theorem c6_single_bearish_example :
    DynamicMatrix.initial.height = 7 ∧
    ((addCandle DynamicMatrix.initial ⟨CandleType.bearish, 3, 1, 2⟩).candles.map
        (fun pc => (pc.highPrice, pc.openPrice, pc.closePrice, pc.lowPrice))) =
      [((101 : ℚ), (100 : ℚ), (97 : ℚ), (95 : ℚ))] ∧
    8 ≤ (addCandle DynamicMatrix.initial ⟨CandleType.bearish, 3, 1, 2⟩).height := by
  refine ⟨rfl, ?_, ?_⟩
  · rw [addCandle_of_empty _ _ rfl, addFirstCandle_candles_empty _ _ rfl]
    simp only [List.map_cons, List.map_nil]
    norm_num
    decide
  · rw [addCandle_of_empty _ _ rfl]
    simp only [addFirstCandle]
    rw [redrawAllCandles_height, setPriceBounds_height, appendCandle_height]
    unfold expandIfNeeded
    rw [if_pos (by decide)]
    unfold expandMatrix
    rw [if_neg (by decide)]
    decide

/-- C3: for fixed bounds (non-empty session, `minPrice ≤ maxPrice`, and a
grid tall enough for the clamp interval, as in every reachable state),
`priceToRow` is non-increasing in the price, and its result always lies in
`[buffer, height - buffer - 1]`. -/
theorem c3_priceToRow_monotone_range (m : DynamicMatrix) (p1 p2 : ℚ) (hp : p1 ≤ p2)
    (h1 : m.candles ≠ []) (h2 : m.minPrice ≤ m.maxPrice) (h3 : 2 * m.buffer + 2 ≤ m.height) :
    priceToRow m p2 ≤ priceToRow m p1 ∧
    ((m.buffer : ℤ) ≤ priceToRow m p1 ∧ priceToRow m p1 ≤ (m.height : ℤ) - m.buffer - 1) ∧
    ((m.buffer : ℤ) ≤ priceToRow m p2 ∧ priceToRow m p2 ≤ (m.height : ℤ) - m.buffer - 1) :=
  ⟨priceToRow_anti hp h2 (by omega),
    priceToRow_mem_band p1 h1 (by omega) (by omega),
    priceToRow_mem_band p2 h1 (by omega) (by omega)⟩

theorem c3_priceToRow_monotone_range_witness :
    ((96 : ℚ) ≤ 100 ∧
      (addCandle DynamicMatrix.initial ⟨CandleType.bearish, 3, 1, 2⟩).candles ≠ [] ∧
      (addCandle DynamicMatrix.initial ⟨CandleType.bearish, 3, 1, 2⟩).minPrice ≤
        (addCandle DynamicMatrix.initial ⟨CandleType.bearish, 3, 1, 2⟩).maxPrice ∧
      2 * (addCandle DynamicMatrix.initial ⟨CandleType.bearish, 3, 1, 2⟩).buffer + 2 ≤
        (addCandle DynamicMatrix.initial ⟨CandleType.bearish, 3, 1, 2⟩).height) ∧
    priceToRow (addCandle DynamicMatrix.initial ⟨CandleType.bearish, 3, 1, 2⟩) 100 ≤
      priceToRow (addCandle DynamicMatrix.initial ⟨CandleType.bearish, 3, 1, 2⟩) 96 := by
  have hp : (96 : ℚ) ≤ 100 := by norm_num
  have hne : (addCandle DynamicMatrix.initial ⟨CandleType.bearish, 3, 1, 2⟩).candles ≠ [] := by
    rw [addCandle_of_empty _ _ rfl]
    exact ne_nil_of_length_succ (addFirstCandle_length _ _)
  have hmm : (addCandle DynamicMatrix.initial ⟨CandleType.bearish, 3, 1, 2⟩).minPrice ≤
      (addCandle DynamicMatrix.initial ⟨CandleType.bearish, 3, 1, 2⟩).maxPrice := by
    rw [addCandle_of_empty _ _ rfl, (addFirstCandle_bounds _ _).1, (addFirstCandle_bounds _ _).2]
    norm_num
  have hh : 2 * (addCandle DynamicMatrix.initial ⟨CandleType.bearish, 3, 1, 2⟩).buffer + 2 ≤
      (addCandle DynamicMatrix.initial ⟨CandleType.bearish, 3, 1, 2⟩).height := by
    have e1 := (addCandle_fields DynamicMatrix.initial ⟨CandleType.bearish, 3, 1, 2⟩).1
    have e2 := (addCandle_fields DynamicMatrix.initial ⟨CandleType.bearish, 3, 1, 2⟩).2.2
    have e3 : DynamicMatrix.initial.buffer = 1 := rfl
    have e4 : DynamicMatrix.initial.height = 7 := rfl
    omega
  exact ⟨⟨hp, hne, hmm, hh⟩,
    (c3_priceToRow_monotone_range _ 96 100 hp hne hmm hh).1⟩

/-- C4: `width` and `height` never decrease across either add operation;
`expandMatrix` is the identity when both requested extents are within the
current ones, and it always preserves every existing cell at its original
coordinates. -/
theorem c4_monotone_growth (m : DynamicMatrix) (candle : Candle)
    (nw nh nw2 nh2 : ℤ) (r cl : ℕ)
    (h1 : nw ≤ (m.width : ℤ)) (h2 : nh ≤ (m.height : ℤ))
    (h3 : r < m.height) (h4 : cl < m.width) :
    (m.width ≤ (addCandle m candle).width ∧ m.height ≤ (addCandle m candle).height ∧
      m.width ≤ (addFirstCandle m candle).width ∧ m.height ≤ (addFirstCandle m candle).height) ∧
    expandMatrix m nw nh = m ∧
    getCell (expandMatrix m nw2 nh2) r cl = getCell m r cl := by
  refine ⟨⟨(addCandle_fields m candle).2.1, (addCandle_fields m candle).2.2,
    (addFirstCandle_fields m candle).2.1, (addFirstCandle_fields m candle).2.2⟩, ?_, ?_⟩
  · unfold expandMatrix
    rw [if_pos ⟨h1, h2⟩]
  · exact getCell_expandMatrix m nw2 nh2 r cl h3 h4

theorem c4_monotone_growth_witness :
    ((5 : ℤ) ≤ (DynamicMatrix.initial.width : ℤ) ∧ (5 : ℤ) ≤ (DynamicMatrix.initial.height : ℤ) ∧
      2 < DynamicMatrix.initial.height ∧ 3 < DynamicMatrix.initial.width) ∧
    (DynamicMatrix.initial.width ≤
        (addCandle DynamicMatrix.initial ⟨CandleType.bullish, 1, 0, 0⟩).width ∧
      DynamicMatrix.initial.height ≤
        (addCandle DynamicMatrix.initial ⟨CandleType.bullish, 1, 0, 0⟩).height ∧
      DynamicMatrix.initial.width ≤
        (addFirstCandle DynamicMatrix.initial ⟨CandleType.bullish, 1, 0, 0⟩).width ∧
      DynamicMatrix.initial.height ≤
        (addFirstCandle DynamicMatrix.initial ⟨CandleType.bullish, 1, 0, 0⟩).height) ∧
    expandMatrix DynamicMatrix.initial 5 5 = DynamicMatrix.initial ∧
    getCell (expandMatrix DynamicMatrix.initial 9 9) 2 3 = getCell DynamicMatrix.initial 2 3 :=
  ⟨⟨by decide, by decide, by decide, by decide⟩,
    c4_monotone_growth DynamicMatrix.initial ⟨CandleType.bullish, 1, 0, 0⟩ 5 5 9 9 2 3
      (by decide) (by decide) (by decide) (by decide)⟩

/-- C7: a drawn candle paints `|closeRow - openRow| + 1` body rows (one row
for a zero-height body), the body 3 columns wide at `column - 1`, `column`,
`column + 1` clipped at the canvas edges, and wick glyphs at `column` only,
from `highRow` up to (exclusive) the body top and from the body bottom
(exclusive) down to `lowRow`. -/
theorem c7_drawCandle_body_and_wicks (m : DynamicMatrix) (candle : PositionedCandle)
    (r' c' : ℕ) (hwf : WF m) (hr : r' < m.height) (hc : c' < m.width) :
    (Finset.Icc (min (priceToRow m candle.openPrice) (priceToRow m candle.closePrice))
        (max (priceToRow m candle.openPrice) (priceToRow m candle.closePrice))).card =
      (priceToRow m candle.closePrice - priceToRow m candle.openPrice).natAbs + 1 ∧
    getCell (drawCandle m candle) r' c' =
      (if candle.column = (c' : ℤ) ∧
          max (priceToRow m candle.openPrice) (priceToRow m candle.closePrice) < (r' : ℤ) ∧
          (r' : ℤ) ≤ priceToRow m candle.lowPrice then '|'
      else if min (priceToRow m candle.openPrice) (priceToRow m candle.closePrice) ≤ (r' : ℤ) ∧
          (r' : ℤ) ≤ max (priceToRow m candle.openPrice) (priceToRow m candle.closePrice) ∧
          (candle.column = (c' : ℤ) ∨ (0 < candle.column ∧ candle.column - 1 = (c' : ℤ)) ∨
            (candle.column < (m.width : ℤ) - 1 ∧ candle.column + 1 = (c' : ℤ))) then
        (if candle.type = CandleType.bullish then '█' else '░')
      else if candle.column = (c' : ℤ) ∧ priceToRow m candle.highPrice ≤ (r' : ℤ) ∧
          (r' : ℤ) < min (priceToRow m candle.openPrice) (priceToRow m candle.closePrice) then '|'
      else getCell m r' c') := by
  constructor
  · rw [Int.card_Icc]
    omega
  · exact getCell_drawCandle m candle r' c' hwf hr hc

theorem c7_drawCandle_body_and_wicks_witness :
    (WF DynamicMatrix.initial ∧ 2 < DynamicMatrix.initial.height ∧
      3 < DynamicMatrix.initial.width) ∧
    ((Finset.Icc (min (priceToRow DynamicMatrix.initial 100) (priceToRow DynamicMatrix.initial 102))
        (max (priceToRow DynamicMatrix.initial 100)
          (priceToRow DynamicMatrix.initial 102))).card =
      (priceToRow DynamicMatrix.initial 102 - priceToRow DynamicMatrix.initial 100).natAbs + 1 ∧
    getCell (drawCandle DynamicMatrix.initial
        ⟨⟨CandleType.bullish, 2, 1, 1⟩, 3, 103, 100, 102, 99⟩) 2 3 =
      (if (3 : ℤ) = ((3 : ℕ) : ℤ) ∧
          max (priceToRow DynamicMatrix.initial 100) (priceToRow DynamicMatrix.initial 102) <
            ((2 : ℕ) : ℤ) ∧
          ((2 : ℕ) : ℤ) ≤ priceToRow DynamicMatrix.initial 99 then '|'
      else if min (priceToRow DynamicMatrix.initial 100) (priceToRow DynamicMatrix.initial 102) ≤
            ((2 : ℕ) : ℤ) ∧
          ((2 : ℕ) : ℤ) ≤
            max (priceToRow DynamicMatrix.initial 100) (priceToRow DynamicMatrix.initial 102) ∧
          ((3 : ℤ) = ((3 : ℕ) : ℤ) ∨ ((0 : ℤ) < 3 ∧ (3 : ℤ) - 1 = ((3 : ℕ) : ℤ)) ∨
            ((3 : ℤ) < (DynamicMatrix.initial.width : ℤ) - 1 ∧ (3 : ℤ) + 1 = ((3 : ℕ) : ℤ))) then
        (if CandleType.bullish = CandleType.bullish then '█' else '░')
      else if (3 : ℤ) = ((3 : ℕ) : ℤ) ∧ priceToRow DynamicMatrix.initial 103 ≤ ((2 : ℕ) : ℤ) ∧
          ((2 : ℕ) : ℤ) <
            min (priceToRow DynamicMatrix.initial 100) (priceToRow DynamicMatrix.initial 102) then
        '|'
      else getCell DynamicMatrix.initial 2 3)) :=
  ⟨⟨by decide, by decide, by decide⟩,
    c7_drawCandle_body_and_wicks DynamicMatrix.initial
      ⟨⟨CandleType.bullish, 2, 1, 1⟩, 3, 103, 100, 102, 99⟩ 2 3 (by decide) (by decide)
      (by decide)⟩

/-- C8: after `addCandle` on a non-empty session (buffer 1, grid at least 3
rows, as in every reachable state), every cell in the top `buffer` rows and
in the bottom `buffer` rows of the resulting grid is blank. -/
theorem c8_buffer_rows_blank (m : DynamicMatrix) (candle : Candle) (r cl : ℕ)
    (h1 : m.candles ≠ []) (h2 : m.buffer = 1) (h3 : 3 ≤ m.height)
    (h4 : r < (addCandle m candle).buffer ∨
      ((addCandle m candle).height - (addCandle m candle).buffer ≤ r ∧
        r < (addCandle m candle).height)) :
    getCell (addCandle m candle) r cl = ' ' := by
  have hbuf : (addCandle m candle).buffer = m.buffer := (addCandle_fields m candle).1
  have hhge : m.height ≤ (addCandle m candle).height := (addCandle_fields m candle).2.2
  simp only [addCandle, dif_neg h1] at h4 hbuf hhge ⊢
  rw [redrawAllCandles_buffer] at hbuf
  rw [redrawAllCandles_height] at hhge
  rw [redrawAllCandles_buffer, redrawAllCandles_height] at h4
  refine redrawAllCandles_blank _ r cl ?_ ?_ ?_ ?_ ?_
  · rw [appendCandle_candles]
    intro hcon
    simp at hcon
  · omega
  · omega
  · omega
  · omega

theorem c8_buffer_rows_blank_witness :
    ((addCandle DynamicMatrix.initial ⟨CandleType.bearish, 3, 1, 2⟩).candles ≠ [] ∧
      (addCandle DynamicMatrix.initial ⟨CandleType.bearish, 3, 1, 2⟩).buffer = 1 ∧
      3 ≤ (addCandle DynamicMatrix.initial ⟨CandleType.bearish, 3, 1, 2⟩).height ∧
      (0 < (addCandle (addCandle DynamicMatrix.initial ⟨CandleType.bearish, 3, 1, 2⟩)
          ⟨CandleType.bullish, 2, 1, 1⟩).buffer ∨
        ((addCandle (addCandle DynamicMatrix.initial ⟨CandleType.bearish, 3, 1, 2⟩)
            ⟨CandleType.bullish, 2, 1, 1⟩).height -
          (addCandle (addCandle DynamicMatrix.initial ⟨CandleType.bearish, 3, 1, 2⟩)
            ⟨CandleType.bullish, 2, 1, 1⟩).buffer ≤ 0 ∧
          0 < (addCandle (addCandle DynamicMatrix.initial ⟨CandleType.bearish, 3, 1, 2⟩)
            ⟨CandleType.bullish, 2, 1, 1⟩).height))) ∧
    getCell (addCandle (addCandle DynamicMatrix.initial ⟨CandleType.bearish, 3, 1, 2⟩)
      ⟨CandleType.bullish, 2, 1, 1⟩) 0 0 = ' ' := by
  have hA : (addCandle DynamicMatrix.initial ⟨CandleType.bearish, 3, 1, 2⟩).candles ≠ [] := by
    rw [addCandle_of_empty _ _ rfl]
    exact ne_nil_of_length_succ (addFirstCandle_length _ _)
  have hB : (addCandle DynamicMatrix.initial ⟨CandleType.bearish, 3, 1, 2⟩).buffer = 1 :=
    ((addCandle_fields DynamicMatrix.initial ⟨CandleType.bearish, 3, 1, 2⟩).1).trans rfl
  have hC : 3 ≤ (addCandle DynamicMatrix.initial ⟨CandleType.bearish, 3, 1, 2⟩).height :=
    le_trans (by decide)
      (addCandle_fields DynamicMatrix.initial ⟨CandleType.bearish, 3, 1, 2⟩).2.2
  have hD : 0 < (addCandle (addCandle DynamicMatrix.initial ⟨CandleType.bearish, 3, 1, 2⟩)
      ⟨CandleType.bullish, 2, 1, 1⟩).buffer ∨
      ((addCandle (addCandle DynamicMatrix.initial ⟨CandleType.bearish, 3, 1, 2⟩)
          ⟨CandleType.bullish, 2, 1, 1⟩).height -
        (addCandle (addCandle DynamicMatrix.initial ⟨CandleType.bearish, 3, 1, 2⟩)
          ⟨CandleType.bullish, 2, 1, 1⟩).buffer ≤ 0 ∧
        0 < (addCandle (addCandle DynamicMatrix.initial ⟨CandleType.bearish, 3, 1, 2⟩)
          ⟨CandleType.bullish, 2, 1, 1⟩).height) := by
    left
    rw [(addCandle_fields (addCandle DynamicMatrix.initial ⟨CandleType.bearish, 3, 1, 2⟩)
      ⟨CandleType.bullish, 2, 1, 1⟩).1, hB]
    decide
  exact ⟨⟨hA, hB, hC, hD⟩,
    c8_buffer_rows_blank (addCandle DynamicMatrix.initial ⟨CandleType.bearish, 3, 1, 2⟩)
      ⟨CandleType.bullish, 2, 1, 1⟩ 0 0 hA hB hC hD⟩

end AsciiChart
